import Mathlib

/-!
Verification of the block-settlement core of the dashboard backend
(`routes/consolidated_2.py` together with the merit-order allocator of
`routes/procurement.py`).

Modelling conventions (shallow embedding):
* Python floats are modelled as exact rationals (`ℚ`).  The `round(x, n)`
  calls in the source only fix display precision and are not modelled.
* `datetime.time` values are modelled by `Tm` (hour, minute) compared
  lexicographically, exactly as Python compares `time` objects at the
  minute granularity used by the settlement code.  Block timestamps are
  integers counting minutes, so that "15 minutes earlier" and
  "strictly before" are meaningful; the time of day is the value mod 1440.
* MongoDB reads are modelled as explicit inputs: a `find_one` that can
  find nothing becomes an `Option`, a cursor becomes a list, and the
  mutable `Battery_Status` collection becomes a `Store` value that is
  threaded through the computation explicitly.
* `bisect.bisect_left(a, q)` on the nondecreasing cumulative array `a`
  returns the index of the first entry `≥ q`, which is `List.findIdx`
  of that predicate; the cumulative arrays are nondecreasing because
  backdown units are nonnegative.
-/

namespace PC

/-- Python `datetime.time` restricted to (hour, minute), the precision at
which the settlement code compares times. -/
structure Tm where
  hour : Nat
  minute : Nat
deriving DecidableEq, Repr

/-- Lexicographic `≤` on times, as Python compares `datetime.time`. -/
def timeLE (a b : Tm) : Bool :=
  decide (a.hour < b.hour) || (decide (a.hour = b.hour) && decide (a.minute ≤ b.minute))

/-- Lexicographic `<` on times, as Python compares `datetime.time`. -/
def timeLT (a b : Tm) : Bool :=
  decide (a.hour < b.hour) || (decide (a.hour = b.hour) && decide (a.minute < b.minute))

/-- `in_dsm_window` of `consolidated_2.py`: inside `[09:00, 11:00)` or
`[18:00, 20:00)` (half-open, via Python's `<=`/`<` on `time`). -/
def in_dsm_window (t : Tm) : Bool :=
  (timeLE ⟨9, 0⟩ t && timeLT t ⟨11, 0⟩) || (timeLE ⟨18, 0⟩ t && timeLT t ⟨20, 0⟩)

/-- Time of day of an integer block timestamp counted in minutes. -/
def tmOfMinutes (ts : Int) : Tm :=
  ⟨((ts.emod 1440) / 60).toNat, ((ts.emod 1440) % 60).toNat⟩

/-- DSM-window test applied to a block timestamp. -/
def in_dsm_window_ts (ts : Int) : Bool :=
  in_dsm_window (tmOfMinutes ts)

/-! Stable insertion sort by a rational key, modelling both the Mongo
server-side `sort("VC", ASCENDING)` and Python's `sorted(..., key=...)`. -/

def insertByKey {α : Type} (key : α → ℚ) (x : α) : List α → List α
  | [] => [x]
  | y :: l => if key x ≤ key y then x :: y :: l else y :: insertByKey key x l

def sortByKey {α : Type} (key : α → ℚ) : List α → List α
  | [] => []
  | x :: l => insertByKey key x (sortByKey key l)

theorem mem_insertByKey {α : Type} (key : α → ℚ) (x a : α) :
    ∀ l : List α, a ∈ insertByKey key x l ↔ a = x ∨ a ∈ l
  | [] => by simp [insertByKey]
  | y :: l => by
    by_cases h : key x ≤ key y
    · simp [insertByKey, h]
    · simp only [insertByKey, if_neg h, List.mem_cons, mem_insertByKey key x a l]
      tauto

theorem mem_sortByKey {α : Type} (key : α → ℚ) (a : α) :
    ∀ l : List α, a ∈ sortByKey key l ↔ a ∈ l
  | [] => Iff.rfl
  | x :: l => by
    simp only [sortByKey, mem_insertByKey, List.mem_cons, mem_sortByKey key a l]

theorem length_insertByKey {α : Type} (key : α → ℚ) (x : α) :
    ∀ l : List α, (insertByKey key x l).length = l.length + 1
  | [] => rfl
  | y :: l => by
    by_cases h : key x ≤ key y
    · simp [insertByKey, h]
    · simp [insertByKey, h, length_insertByKey key x l]

theorem length_sortByKey {α : Type} (key : α → ℚ) :
    ∀ l : List α, (sortByKey key l).length = l.length
  | [] => rfl
  | x :: l => by simp [sortByKey, length_insertByKey, length_sortByKey key l]

/-! The per-block prefix-sum pricing structure.  The cache entry holds, for
the variable-cost-ascending plant list, the list `vc` of rates and the
cumulative arrays `cum_units` / `cum_cost`; one entry of the underlying
plant list is abstracted to its `(variable_cost, backdown_units)` pair. -/

/-- One `(VC, backdown_units)` entry of the ascending-cost plant list. -/
abbrev PriceBand := ℚ × ℚ

/-- The `cum_units` array of `fetch_plants_prepare_prefix`. -/
def cumUnits : List PriceBand → List ℚ
  | [] => []
  | (_, b) :: rest => b :: (cumUnits rest).map (fun x => b + x)

/-- The `cum_cost` array of `fetch_plants_prepare_prefix`. -/
def cumCost : List PriceBand → List ℚ
  | [] => []
  | (v, b) :: rest => v * b :: (cumCost rest).map (fun x => v * b + x)

/-- `bisect.bisect_left` on a nondecreasing array: index of the first
entry `≥ q` (the array length when there is none). -/
def bisectLeft (l : List ℚ) (q : ℚ) : Nat :=
  l.findIdx (fun x => decide (q ≤ x))

/-- The `total_cost` computed by `calculate_weighted_average_for_quantum_prefix`
for `q > 0`: the three-way case split of the source on
`k = bisect_left(cum_units, q)` (`q` inside the first band, beyond all
bands, or in between).  The source's local variables `vc`, `cum_units`,
`cum_cost` are inlined as `plants.map Prod.fst`, `cumUnits`, `cumCost`. -/
def quantumCost (plants : List PriceBand) (q : ℚ) : ℚ :=
  if bisectLeft (cumUnits plants) q = 0 then
    q * ((plants.map Prod.fst).headD 0)
  else if (cumUnits plants).length ≤ bisectLeft (cumUnits plants) q then
    ((cumCost plants).getLast?).getD 0 +
      (q - ((cumUnits plants).getLast?).getD 0) * (((plants.map Prod.fst).getLast?).getD 0)
  else
    (cumCost plants).getD (bisectLeft (cumUnits plants) q - 1) 0 +
      (q - (cumUnits plants).getD (bisectLeft (cumUnits plants) q - 1) 0) *
        (plants.map Prod.fst).getD (bisectLeft (cumUnits plants) q) 0

/-- `calculate_weighted_average_for_quantum_prefix` of `consolidated_2.py`,
acting on the cache entry built from the ascending plant list.  Returns
`(weighted_average, total_cost, q)` — note the third component is `q`
itself (the source returns `round(q, 2)`). -/
def calculate_weighted_average_for_quantum (plants : List PriceBand) (q : ℚ) :
    ℚ × ℚ × ℚ :=
  if q ≤ 0 then (0, 0, 0)
  else (quantumCost plants q / q, quantumCost plants q, q)

/-- Modelled from the spec: the naive linear-scan reference implementation
(spec section 8) consumes backdown units cheapest-first from the remaining
quantity.  The list is the ascending-cost plant list, so scanning it in
order is cheapest-first consumption. -/
def consumeCheapestFirst : List PriceBand → ℚ → ℚ
  | [], _ => 0
  | (v, b) :: rest, r => v * min b r + consumeCheapestFirst rest (r - min b r)

/-- Rate of the last (most expensive, for an ascending list) unit. -/
def lastRate (l : List PriceBand) : ℚ :=
  ((l.getLast?).map Prod.fst).getD 0

/-- Total backdown units of the list. -/
def totalUnits (l : List PriceBand) : ℚ :=
  (l.map Prod.snd).sum

/-- Modelled from the spec: naive reference cost — consume cheapest-first,
and price any remainder beyond the total cumulative units at the most
expensive unit's rate. -/
def naiveScanCost (l : List PriceBand) (q : ℚ) : ℚ :=
  consumeCheapestFirst l q + max (q - totalUnits l) 0 * lastRate l

/-! Lemmas relating the prefix-array pricing to the naive scan. -/

theorem length_cumUnits : ∀ l : List PriceBand, (cumUnits l).length = l.length
  | [] => rfl
  | (_, _) :: rest => by simp [cumUnits, length_cumUnits rest]

theorem length_cumCost : ∀ l : List PriceBand, (cumCost l).length = l.length
  | [] => rfl
  | (_, _) :: rest => by simp [cumCost, length_cumCost rest]

theorem findIdx_map_add (b q : ℚ) :
    ∀ l : List ℚ, (l.map (fun x => b + x)).findIdx (fun x => decide (q ≤ x)) =
      l.findIdx (fun x => decide (q - b ≤ x))
  | [] => rfl
  | x :: l => by
    simp only [List.map_cons, List.findIdx_cons]
    have h : decide (q ≤ b + x) = decide (q - b ≤ x) := by
      rw [decide_eq_decide]
      constructor <;> intro <;> linarith
    rw [h, findIdx_map_add b q l]

theorem getD_map_add (b : ℚ) :
    ∀ (l : List ℚ) (i : Nat), i < l.length →
      (l.map (fun x => b + x)).getD i 0 = b + l.getD i 0
  | [], i, h => absurd h (by simp)
  | _ :: _, 0, _ => rfl
  | x :: l, i + 1, h => by
    simp only [List.map_cons, List.getD_cons_succ]
    exact getD_map_add b l i (by simpa using h)

theorem getLast_getD_map_add (b : ℚ) (l : List ℚ) (h : l ≠ []) :
    ((l.map (fun x => b + x)).getLast?).getD 0 = b + (l.getLast?).getD 0 := by
  rw [List.getLast?_map]
  cases e : l.getLast? with
  | none => exact absurd (List.getLast?_eq_none_iff.mp e) h
  | some a => rfl

theorem getLast_getD_cons (x : ℚ) (l : List ℚ) (h : l ≠ []) :
    (((x :: l).getLast?)).getD 0 = ((l.getLast?)).getD 0 := by
  cases l with
  | nil => exact absurd rfl h
  | cons y m => rw [List.getLast?_cons_cons]

theorem bisectLeft_cumUnits_cons (v b q : ℚ) (rest : List PriceBand) :
    bisectLeft (cumUnits ((v, b) :: rest)) q =
      if q ≤ b then 0 else bisectLeft (cumUnits rest) (q - b) + 1 := by
  simp only [cumUnits, bisectLeft, List.findIdx_cons]
  rw [findIdx_map_add]
  by_cases h : q ≤ b
  · simp [h]
  · simp [h]

theorem quantumCost_cons (v b : ℚ) (rest : List PriceBand) (q : ℚ) :
    quantumCost ((v, b) :: rest) q =
      if q ≤ b then q * v
      else v * b + (if rest = [] then (q - b) * v
        else quantumCost rest (q - b)) := by
  by_cases hqb : q ≤ b
  · rw [if_pos hqb]
    rw [quantumCost, bisectLeft_cumUnits_cons, if_pos hqb]
    simp
  · rw [if_neg hqb]
    cases rest with
    | nil =>
      rw [if_pos rfl]
      rw [quantumCost, bisectLeft_cumUnits_cons, if_neg hqb]
      have hk0 : bisectLeft (cumUnits []) (q - b) = 0 := rfl
      rw [hk0]
      norm_num [cumUnits, cumCost]
    | cons p rs =>
      rw [if_neg (by simp : p :: rs ≠ [])]
      rw [quantumCost, bisectLeft_cumUnits_cons, if_neg hqb]
      set k := bisectLeft (cumUnits (p :: rs)) (q - b) with hk
      clear_value k
      have hlen : (cumUnits ((v, b) :: p :: rs)).length = (cumUnits (p :: rs)).length + 1 := by
        simp [length_cumUnits]
      have hlenpos : 0 < (cumUnits (p :: rs)).length := by
        rw [length_cumUnits]; simp
      rw [if_neg (Nat.succ_ne_zero k)]
      have hcune : cumUnits (p :: rs) ≠ [] := by
        intro hnil
        rw [hnil] at hlenpos
        simp at hlenpos
      have hccne : cumCost (p :: rs) ≠ [] := by
        have h1 := length_cumCost (p :: rs)
        intro hnil
        rw [hnil] at h1
        simp at h1
      by_cases hbig : (cumUnits (p :: rs)).length ≤ k
      · have hb2 : (cumUnits ((v, b) :: p :: rs)).length ≤ k + 1 := by omega
        rw [if_pos hb2]
        rw [quantumCost, ← hk, if_neg (by omega : ¬ k = 0), if_pos hbig]
        have e1 : ((cumCost ((v, b) :: p :: rs)).getLast?).getD 0 =
            v * b + ((cumCost (p :: rs)).getLast?).getD 0 := by
          show (((v * b :: (cumCost (p :: rs)).map (fun x => v * b + x)).getLast?)).getD 0 = _
          rw [getLast_getD_cons _ _ (by simpa using hccne), getLast_getD_map_add _ _ hccne]
        have e2 : ((cumUnits ((v, b) :: p :: rs)).getLast?).getD 0 =
            b + ((cumUnits (p :: rs)).getLast?).getD 0 := by
          show (((b :: (cumUnits (p :: rs)).map (fun x => b + x)).getLast?)).getD 0 = _
          rw [getLast_getD_cons _ _ (by simpa using hcune), getLast_getD_map_add _ _ hcune]
        have e3 : ((((v, b) :: p :: rs).map Prod.fst).getLast?).getD 0 =
            (((p :: rs).map Prod.fst).getLast?).getD 0 := by
          simp only [List.map_cons]
          exact getLast_getD_cons _ _ (by simp)
        rw [e1, e2, e3]
        ring
      · have hb2 : ¬ (cumUnits ((v, b) :: p :: rs)).length ≤ k + 1 := by omega
        rw [if_neg hb2]
        have hks : k + 1 - 1 = k := by omega
        rw [hks]
        cases k with
        | zero =>
          rw [quantumCost, ← hk, if_pos rfl]
          simp only [cumUnits, cumCost, List.map_cons]
          norm_num
        | succ n =>
          rw [quantumCost, ← hk, if_neg (Nat.succ_ne_zero n), if_neg hbig]
          have hnlt : n < (cumUnits (p :: rs)).length := by omega
          have hnlt' : n < (cumCost (p :: rs)).length := by
            have := length_cumCost (p :: rs)
            have := length_cumUnits (p :: rs)
            omega
          have e1 : (cumCost ((v, b) :: p :: rs)).getD (n + 1) 0 =
              v * b + (cumCost (p :: rs)).getD n 0 := by
            show (v * b :: (cumCost (p :: rs)).map (fun x => v * b + x)).getD (n + 1) 0 = _
            rw [List.getD_cons_succ, getD_map_add _ _ _ hnlt']
          have e2 : (cumUnits ((v, b) :: p :: rs)).getD (n + 1) 0 =
              b + (cumUnits (p :: rs)).getD n 0 := by
            show (b :: (cumUnits (p :: rs)).map (fun x => b + x)).getD (n + 1) 0 = _
            rw [List.getD_cons_succ, getD_map_add _ _ _ hnlt]
          have e3 : (((v, b) :: p :: rs).map Prod.fst).getD (n + 1 + 1) 0 =
              ((p :: rs).map Prod.fst).getD (n + 1) 0 := by
            simp only [List.map_cons, List.getD_cons_succ]
          have hsub : n + 1 - 1 = n := by omega
          rw [hsub, e1, e2, e3]
          ring

theorem consumeCheapestFirst_zero :
    ∀ l : List PriceBand, (∀ p ∈ l, 0 ≤ p.2) → consumeCheapestFirst l 0 = 0
  | [], _ => rfl
  | (v, b) :: rest, h => by
    have hb : 0 ≤ b := h (v, b) (List.mem_cons_self _ _)
    have hrest : ∀ p ∈ rest, 0 ≤ p.2 := fun p hp => h p (List.mem_cons_of_mem _ hp)
    simp only [consumeCheapestFirst]
    rw [min_eq_right hb, mul_zero, sub_zero, consumeCheapestFirst_zero rest hrest]
    ring

theorem totalUnits_nonneg (l : List PriceBand) (h : ∀ p ∈ l, 0 ≤ p.2) :
    0 ≤ totalUnits l := by
  apply List.sum_nonneg
  intro x hx
  obtain ⟨p, hp, rfl⟩ := List.mem_map.mp hx
  exact h p hp

theorem naiveScanCost_cons (v b : ℚ) (rest : List PriceBand) (q : ℚ)
    (hb : 0 ≤ b) (hrest : ∀ p ∈ rest, 0 ≤ p.2) :
    naiveScanCost ((v, b) :: rest) q =
      if q ≤ b then q * v
      else v * b + (if rest = [] then (q - b) * v else naiveScanCost rest (q - b)) := by
  by_cases hqb : q ≤ b
  · rw [if_pos hqb]
    have h1 : min b q = q := min_eq_right hqb
    have h2 : q - totalUnits ((v, b) :: rest) ≤ 0 := by
      have h3 : 0 ≤ totalUnits rest := totalUnits_nonneg rest hrest
      have h4 : totalUnits ((v, b) :: rest) = b + totalUnits rest := by
        simp [totalUnits]
      rw [h4]; linarith
    simp only [naiveScanCost, consumeCheapestFirst, h1]
    rw [sub_self, consumeCheapestFirst_zero rest hrest, max_eq_right h2]
    ring
  · rw [if_neg hqb]
    have hble : b ≤ q := le_of_lt (lt_of_not_le hqb)
    have h1 : min b q = b := min_eq_left hble
    cases rest with
    | nil =>
      rw [if_pos rfl]
      have h2 : totalUnits [(v, b)] = b := by simp [totalUnits]
      have h3 : max (q - totalUnits [(v, b)]) 0 = q - b := by
        rw [h2]; exact max_eq_left (by linarith)
      simp only [naiveScanCost, consumeCheapestFirst, h1, h3]
      have h4 : lastRate [(v, b)] = v := rfl
      rw [h4]
      ring
    | cons p rs =>
      rw [if_neg (by simp : p :: rs ≠ [])]
      have hl : lastRate ((v, b) :: p :: rs) = lastRate (p :: rs) := by
        simp [lastRate, List.getLast?_cons_cons]
      have ht : totalUnits ((v, b) :: p :: rs) = b + totalUnits (p :: rs) := by
        simp [totalUnits]
      simp only [naiveScanCost, consumeCheapestFirst, h1, hl, ht]
      have h5 : q - (b + totalUnits (p :: rs)) = (q - b) - totalUnits (p :: rs) := by ring
      rw [h5]
      ring

theorem quantumCost_eq_naive :
    ∀ (plants : List PriceBand) (q : ℚ), plants ≠ [] →
      (∀ p ∈ plants, 0 ≤ p.2) → 0 < q → quantumCost plants q = naiveScanCost plants q
  | (v, b) :: rest, q, _, hpos, hq => by
    have hb : 0 ≤ b := hpos (v, b) (List.mem_cons_self _ _)
    have hrest : ∀ p ∈ rest, 0 ≤ p.2 := fun p hp => hpos p (List.mem_cons_of_mem _ hp)
    rw [quantumCost_cons v b rest q, naiveScanCost_cons v b rest q hb hrest]
    by_cases hqb : q ≤ b
    · simp [hqb]
    · rw [if_neg hqb, if_neg hqb]
      cases hre : rest with
      | nil => rfl
      | cons p rs =>
        rw [if_neg (by simp : p :: rs ≠ []), if_neg (by simp : p :: rs ≠ [])]
        have hq' : 0 < q - b := by
          have := lt_of_not_le hqb
          linarith
        have := quantumCost_eq_naive (p :: rs) (q - b) (by simp)
          (by rw [← hre]; exact hrest) hq'
        rw [← hre] at this ⊢
        rw [this]

theorem le_lastRate :
    ∀ l : List PriceBand, l.Pairwise (fun a b => a.1 ≤ b.1) → ∀ p ∈ l, p.1 ≤ lastRate l
  | [], _, p, hp => absurd hp (List.not_mem_nil p)
  | [x], _, p, hp => by
    rw [List.mem_singleton] at hp
    subst hp
    exact le_of_eq rfl
  | x :: y :: l, hs, p, hp => by
    rw [List.pairwise_cons] at hs
    have hlast : lastRate (x :: y :: l) = lastRate (y :: l) := by
      simp [lastRate, List.getLast?_cons_cons]
    rw [hlast]
    rcases List.mem_cons.mp hp with rfl | hp'
    · have hxy : p.1 ≤ y.1 := hs.1 y (List.mem_cons_self _ _)
      have hy := le_lastRate (y :: l) hs.2 y (List.mem_cons_self _ _)
      exact le_trans hxy hy
    · exact le_lastRate (y :: l) hs.2 p hp'

/-- C1: for a prepared block (ascending-variable-cost plant list with
nonnegative backdown units), `calculate_weighted_average_for_quantum_prefix`
returns, for every `q > 0` (below or beyond the total backdown), the same
total cost as a naive linear scan that consumes backdown units
cheapest-first and prices any remainder beyond the total cumulative units
at the most expensive unit's rate; its weighted average is that cost
divided by `q`. -/
theorem quantum_pricing_eq_naive_scan (plants : List PriceBand) (q : ℚ)
    (hne : plants ≠ []) (hunits : ∀ p ∈ plants, 0 ≤ p.2)
    (hsorted : plants.Pairwise (fun a b => a.1 ≤ b.1)) (hq : 0 < q) :
    (calculate_weighted_average_for_quantum plants q).2.1 = naiveScanCost plants q ∧
    (calculate_weighted_average_for_quantum plants q).1 = naiveScanCost plants q / q ∧
    ∀ p ∈ plants, p.1 ≤ lastRate plants := by
  have hnle : ¬ q ≤ 0 := not_le.mpr hq
  have hcost : (calculate_weighted_average_for_quantum plants q).2.1 = quantumCost plants q := by
    rw [calculate_weighted_average_for_quantum, if_neg hnle]
  have havg : (calculate_weighted_average_for_quantum plants q).1 = quantumCost plants q / q := by
    rw [calculate_weighted_average_for_quantum, if_neg hnle]
  have hmain := quantumCost_eq_naive plants q hne hunits hq
  exact ⟨by rw [hcost, hmain], by rw [havg, hmain], le_lastRate plants hsorted⟩

/-- Witness for C1 at the spec's two-plant scenario with `q = 2000` beyond
the total 1500 backdown units. -/
theorem quantum_pricing_eq_naive_scan_witness :
    (([((2 : ℚ), 1500), (3, 0)] : List PriceBand) ≠ [] ∧
      (∀ p ∈ ([((2 : ℚ), 1500), (3, 0)] : List PriceBand), 0 ≤ p.2) ∧
      (0 : ℚ) < 2000) ∧
    (calculate_weighted_average_for_quantum [((2 : ℚ), 1500), (3, 0)] 2000).2.1 =
      naiveScanCost [((2 : ℚ), 1500), (3, 0)] 2000 := by
  refine ⟨⟨by decide, by decide, by decide⟩, ?_⟩
  exact (quantum_pricing_eq_naive_scan [((2 : ℚ), 1500), (3, 0)] 2000
    (by decide) (by decide) (by
      refine List.Pairwise.cons ?_ ?_
      · intro b hb
        rw [List.mem_singleton] at hb
        subst hb
        norm_num
      · exact List.pairwise_singleton _ _) (by decide)).1

/-- C8: `in_dsm_window` holds exactly on the half-open local-time ranges
[09:00, 11:00) and [18:00, 20:00) (stated on minutes-of-day `60*h + m`);
in particular 08:59 and 11:00 are outside while 09:00 and 10:59 are
inside. -/
theorem dsm_window_halfopen :
    (in_dsm_window ⟨8, 59⟩ = false ∧ in_dsm_window ⟨9, 0⟩ = true ∧
      in_dsm_window ⟨10, 59⟩ = true ∧ in_dsm_window ⟨11, 0⟩ = false) ∧
    ∀ h m : Nat, m < 60 →
      (in_dsm_window ⟨h, m⟩ = true ↔
        ((540 ≤ 60 * h + m ∧ 60 * h + m < 660) ∨
          (1080 ≤ 60 * h + m ∧ 60 * h + m < 1200))) := by
  refine ⟨by decide, ?_⟩
  intro h m hm
  simp only [in_dsm_window, timeLE, timeLT, Bool.or_eq_true, Bool.and_eq_true,
    decide_eq_true_eq]
  omega

/-! Plant readings and the backdown computation of
`fetch_plants_prepare_prefix` (`consolidated_2.py`).  A raw
`Plant_Generation` document carries already-coerced numeric fields (the
source applies `safe_float`, turning missing/NaN values into `0.0` before
any arithmetic, so the embedding works on the coerced values). -/

structure RawPlant where
  plant_name : String
  dc : ℚ
  sg : ℚ
  vc : ℚ
deriving DecidableEq, Repr

structure PlantRow where
  plant_name : String
  fuel_type : String
  dc : ℚ
  sg : ℚ
  vc : ℚ
  backdown_units : ℚ
  backdown_cost : ℚ
deriving DecidableEq, Repr

/-- `fuel_map.get(name)`: the `Plant_Fuel` dictionary lookup (assuming the
usual case of unique plant names in the collection). -/
def fuelOf (fuel_map : List (String × String)) (name : String) : Option String :=
  (fuel_map.find? (fun e => decide (e.1 = name))).map Prod.snd

/-- The per-plant backdown-units computation of `fetch_plants_prepare_prefix`:
Thermal plants require both `dc > sg` and `sg > 0`; all others only
`dc > sg`; the conversion factor is `× 1000 × 0.25`. -/
def backdown_units_calc (fuel : Option String) (dc sg : ℚ) : ℚ :=
  if fuel = some "Thermal" then
    (if sg < dc ∧ 0 < sg then (dc - sg) * 1000 * (1 / 4) else 0)
  else
    (if sg < dc then (dc - sg) * 1000 * (1 / 4) else 0)

/-- One row appended to `plants_asc` by `fetch_plants_prepare_prefix`. -/
def mkPlantRow (fuel_map : List (String × String)) (p : RawPlant) : PlantRow :=
  { plant_name := p.plant_name
    fuel_type := (fuelOf fuel_map p.plant_name).getD "Unknown"
    dc := p.dc
    sg := p.sg
    vc := p.vc
    backdown_units := backdown_units_calc (fuelOf fuel_map p.plant_name) p.dc p.sg
    backdown_cost := backdown_units_calc (fuelOf fuel_map p.plant_name) p.dc p.sg * p.vc }

/-- `fetch_plants_prepare_prefix` (the pure part): the Mongo cursor sorted
by `VC` ascending, mapped to plant rows with backdown units and cost. -/
def fetch_plants_prepare (fuel_map : List (String × String))
    (raws : List RawPlant) : List PlantRow :=
  (sortByKey (fun p => p.vc) raws).map (mkPlantRow fuel_map)

theorem backdown_units_calc_nonneg (fuel : Option String) (dc sg : ℚ) :
    0 ≤ backdown_units_calc fuel dc sg := by
  unfold backdown_units_calc
  split_ifs with h1 h2 h3
  · have h0 : 0 ≤ dc - sg := by linarith [h2.1]
    have : (0 : ℚ) ≤ 1000 * (1 / 4) := by norm_num
    nlinarith
  · exact le_refl 0
  · have h0 : 0 ≤ dc - sg := by linarith
    have : (0 : ℚ) ≤ 1000 * (1 / 4) := by norm_num
    nlinarith
  · exact le_refl 0

theorem backdown_units_calc_zero (fuel : Option String) (dc sg : ℚ)
    (h : dc ≤ sg) : backdown_units_calc fuel dc sg = 0 := by
  unfold backdown_units_calc
  split_ifs with h1 h2 h3
  · exact absurd h2.1 (not_lt.mpr h)
  · rfl
  · exact absurd h3 (not_lt.mpr h)
  · rfl

theorem backdown_units_calc_eq (fuel : Option String) (dc sg : ℚ) :
    backdown_units_calc fuel dc sg =
      if sg < dc ∧ (fuel = some "Thermal" → 0 < sg) then (dc - sg) * 1000 * (1 / 4)
      else 0 := by
  unfold backdown_units_calc
  by_cases hf : fuel = some "Thermal"
  · rw [if_pos hf]
    by_cases h1 : sg < dc ∧ 0 < sg
    · rw [if_pos h1, if_pos ⟨h1.1, fun _ => h1.2⟩]
    · rw [if_neg h1, if_neg (fun hc => h1 ⟨hc.1, hc.2 hf⟩)]
  · rw [if_neg hf]
    by_cases h1 : sg < dc
    · rw [if_pos h1, if_pos ⟨h1, fun hth => absurd hth hf⟩]
    · rw [if_neg h1, if_neg (fun hc => h1 hc.1)]

theorem fuel_type_thermal_iff (fuel_map : List (String × String)) (raw : RawPlant) :
    (mkPlantRow fuel_map raw).fuel_type = "Thermal" ↔
      fuelOf fuel_map raw.plant_name = some "Thermal" := by
  show (fuelOf fuel_map raw.plant_name).getD "Unknown" = "Thermal" ↔ _
  cases h : fuelOf fuel_map raw.plant_name with
  | none =>
    simp only [Option.getD_none]
    constructor
    · intro hc
      exact absurd hc (by decide)
    · intro hc
      exact absurd hc (by simp)
  | some s => simp

/-- C3: every prepared plant row has nonnegative backdown units (zero
whenever declared capacity does not exceed scheduled generation), its
backdown cost is units times variable cost, and the units equal
`(DC − SG) × 1000 × 0.25` exactly when `DC > SG` (with the extra `SG > 0`
requirement for Thermal plants), and `0` otherwise. -/
theorem backdown_units_spec (fuel_map : List (String × String))
    (raws : List RawPlant) (p : PlantRow)
    (hp : p ∈ fetch_plants_prepare fuel_map raws) :
    0 ≤ p.backdown_units ∧
    (p.dc ≤ p.sg → p.backdown_units = 0) ∧
    p.backdown_cost = p.backdown_units * p.vc ∧
    p.backdown_units =
      (if p.sg < p.dc ∧ (p.fuel_type = "Thermal" → 0 < p.sg)
       then (p.dc - p.sg) * 1000 * (1 / 4) else 0) := by
  obtain ⟨raw, _, rfl⟩ := List.mem_map.mp hp
  refine ⟨backdown_units_calc_nonneg _ _ _,
    fun h => backdown_units_calc_zero _ _ _ h, rfl, ?_⟩
  have heq := backdown_units_calc_eq (fuelOf fuel_map raw.plant_name) raw.dc raw.sg
  show backdown_units_calc (fuelOf fuel_map raw.plant_name) raw.dc raw.sg = _
  rw [heq]
  apply if_congr _ rfl rfl
  constructor
  · intro ⟨h1, h2⟩
    exact ⟨h1, fun hf => h2 ((fuel_type_thermal_iff fuel_map raw).mp hf)⟩
  · intro ⟨h1, h2⟩
    exact ⟨h1, fun hf => h2 ((fuel_type_thermal_iff fuel_map raw).mpr hf)⟩

/-- Demo thermal plant row used by witnesses. -/
def demoRowC3 : PlantRow := mkPlantRow [("P1", "Thermal")] ⟨"P1", 10, 4, 2⟩

/-- Witness for C3 at a concrete thermal plant reading. -/
theorem backdown_units_spec_witness :
    demoRowC3 ∈ fetch_plants_prepare [("P1", "Thermal")] [⟨"P1", 10, 4, 2⟩] ∧
    (0 ≤ demoRowC3.backdown_units ∧
      (demoRowC3.dc ≤ demoRowC3.sg → demoRowC3.backdown_units = 0) ∧
      demoRowC3.backdown_cost = demoRowC3.backdown_units * demoRowC3.vc ∧
      demoRowC3.backdown_units =
        (if demoRowC3.sg < demoRowC3.dc ∧
            (demoRowC3.fuel_type = "Thermal" → 0 < demoRowC3.sg)
         then (demoRowC3.dc - demoRowC3.sg) * 1000 * (1 / 4) else 0)) :=
  ⟨List.mem_cons_self _ _,
    backdown_units_spec [("P1", "Thermal")] [⟨"P1", 10, 4, 2⟩] demoRowC3
      (List.mem_cons_self _ _)⟩

/-! The storage buffer (`Battery_Status` collection) and its operations. -/

inductive Cycle
  | CHARGE
  | USE
  | NO_CHARGE
deriving DecidableEq, Repr, Inhabited

structure BatteryRec where
  ts : Int
  units : ℚ
  cycle : Cycle
deriving DecidableEq, Repr

/-- The `Battery_Status` collection: at most one logical record per block
timestamp (the upsert keeps timestamps unique). -/
abbrev Store := List BatteryRec

/-- The inline constant `2823529.412` of `consolidated_2.py`. -/
def TOTAL_BATTERY_CAPACITY : ℚ := 2823529412 / 1000

/-- Fold step for `latestBefore`: keep the candidate with the greatest
timestamp among records strictly before `ts`. -/
def betterRec (ts : Int) (r : BatteryRec) : Option BatteryRec → Option BatteryRec
  | none => if r.ts < ts then some r else none
  | some b => if r.ts < ts ∧ b.ts < r.ts then some r else some b

/-- The record with the greatest timestamp strictly before `ts`
(`find_one({"Timestamp": {"$lt": ts}}, sort=[("Timestamp", DESCENDING)])`). -/
def latestBefore (ts : Int) : Store → Option BatteryRec
  | [] => none
  | r :: rest => betterRec ts r (latestBefore ts rest)

/-- `fetch_battery_status`: the latest record strictly before `ts`, or the
synthetic previous-block document at full capacity. -/
def fetch_battery_status (ts : Int) (s : Store) : BatteryRec :=
  (latestBefore ts s).getD ⟨ts - 15, TOTAL_BATTERY_CAPACITY, Cycle.NO_CHARGE⟩

/-- Replace-or-insert of the record keyed by `ts`
(`update_one({"Timestamp": ts}, {"$set": ...}, upsert=True)`). -/
def upsertRecord (ts : Int) (u : ℚ) (c : Cycle) (s : Store) : Store :=
  ⟨ts, u, c⟩ :: s.filter (fun r => decide (r.ts ≠ ts))

/-- `upsert_battery_status`: refetches the previous record and applies the
cycle transition (`CHARGE`: headroom decreases, floored at 0; `USE`:
headroom increases; `NO_CHARGE`: unchanged).  Every call site passes
`capacity_limit=None`, so the optional capacity clamp never applies and is
not modelled. -/
def upsert_battery_status (ts : Int) (qty : ℚ) (c : Cycle) (s : Store) : Store :=
  let prev := fetch_battery_status ts s
  let headroom :=
    match c with
    | Cycle.CHARGE => max (prev.units - qty) 0
    | Cycle.USE => prev.units + qty
    | Cycle.NO_CHARGE => prev.units
  upsertRecord ts headroom c s

theorem betterRec_self (ts : Int) (r : BatteryRec) (h : r.ts = ts) :
    ∀ o : Option BatteryRec, betterRec ts r o = o
  | none => by
    rw [betterRec, if_neg]
    rw [h]
    exact lt_irrefl ts
  | some b => by
    rw [betterRec, if_neg]
    intro hc
    rw [h] at hc
    exact absurd hc.1 (lt_irrefl ts)

theorem latestBefore_filter_ne (ts : Int) :
    ∀ s : Store, latestBefore ts (s.filter (fun r => decide (r.ts ≠ ts))) =
      latestBefore ts s
  | [] => rfl
  | r :: rest => by
    by_cases h : r.ts = ts
    · have hstep : (r :: rest).filter (fun r => decide (r.ts ≠ ts)) =
          rest.filter (fun r => decide (r.ts ≠ ts)) := by
        simp [List.filter_cons, h]
      rw [hstep, latestBefore_filter_ne ts rest]
      show latestBefore ts rest = latestBefore ts (r :: rest)
      rw [latestBefore, betterRec_self ts r h]
    · have hstep : (r :: rest).filter (fun r => decide (r.ts ≠ ts)) =
          r :: rest.filter (fun r => decide (r.ts ≠ ts)) := by
        simp [List.filter_cons, h]
      rw [hstep, latestBefore, latestBefore, latestBefore_filter_ne ts rest]

theorem latestBefore_upsertRecord (ts : Int) (u : ℚ) (c : Cycle) (s : Store) :
    latestBefore ts (upsertRecord ts u c s) = latestBefore ts s := by
  rw [upsertRecord, latestBefore, betterRec_self ts _ rfl, latestBefore_filter_ne]

theorem fetch_upsert (ts : Int) (qty : ℚ) (c : Cycle) (s : Store) :
    fetch_battery_status ts (upsert_battery_status ts qty c s) =
      fetch_battery_status ts s := by
  simp only [upsert_battery_status]
  rw [fetch_battery_status, fetch_battery_status, latestBefore_upsertRecord]

theorem latestBefore_mem (ts : Int) :
    ∀ (s : Store) (r : BatteryRec), latestBefore ts s = some r → r ∈ s
  | [], r, h => by simp [latestBefore] at h
  | x :: rest, r, h => by
    rw [latestBefore] at h
    cases e : latestBefore ts rest with
    | none =>
      rw [e, betterRec] at h
      by_cases hx : x.ts < ts
      · rw [if_pos hx] at h
        cases h
        exact List.mem_cons_self _ _
      · rw [if_neg hx] at h
        cases h
    | some b =>
      rw [e, betterRec] at h
      by_cases hx : x.ts < ts ∧ b.ts < x.ts
      · rw [if_pos hx] at h
        cases h
        exact List.mem_cons_self _ _
      · rw [if_neg hx] at h
        cases h
        exact List.mem_cons_of_mem _ (latestBefore_mem ts rest _ e)

/-! The banking and adjustment decisions.  Each decision performs exactly
one `upsert_battery_status` call (the adjustment performs none when
`adjusted_units ≤ 0`), so the source functions are split into a pure core
returning the decision output together with the upsert's `(qty, cycle)`
argument, and a wrapper applying the store effect.  The wrappers are what
the route uses. -/

structure BankAction where
  qty : ℚ
  cycle : Cycle
deriving DecidableEq, Repr

structure Usage where
  row : PlantRow
  used_for_quantum : ℚ
deriving DecidableEq, Repr

/-- `allocate_used_for_quantum_desc` before the final reversal: fill usage
cheapest-first along the ascending plant list. -/
def allocUsedAsc : List PlantRow → ℚ → List Usage
  | [], _ => []
  | p :: rest, remaining =>
    ⟨p, min p.backdown_units remaining⟩ ::
      allocUsedAsc rest (remaining - min p.backdown_units remaining)

/-- `allocate_used_for_quantum_desc`: per-plant usage for a quantum,
cheapest-first, returned in descending-cost order. -/
def allocate_used_for_quantum_desc (plants : List PlantRow) (quantum : ℚ) :
    List Usage :=
  (allocUsedAsc plants (max 0 quantum)).reverse

/-- The `(VC, backdown_units)` view of the prepared plant list, i.e. the
`vc` and `bu` arrays of the prefix cache entry. -/
def bandsOf (plants : List PlantRow) : List PriceBand :=
  plants.map (fun p => (p.vc, p.backdown_units))

structure BankOut where
  banking_cost : ℚ
  dsm_units : ℚ
  cycle : Cycle
  units_available_after : ℚ
  weighted_average : ℚ
  market_purchase : ℚ
  plants_with_usage : List Usage
deriving DecidableEq, Repr

/-- Pure core of `decide_banking` (`consolidated_2.py`).  The `mod` and
`market_purchase_input` parameters are accepted and ignored, as in the
source.  The second component is the argument of the single
`upsert_battery_status` call the taken branch performs. -/
def decide_banking_core (ts : Int)
    (banked_units scheduled_generation drawl weighted_average_mod
      mod dam rtm market_purchase_input
      total_backdown_units total_backdown_cost units_available_before : ℚ)
    (plants : List PlantRow) : BankOut × BankAction :=
  let s_d := max (scheduled_generation - drawl) 0
  let zeroUse := allocate_used_for_quantum_desc plants 0
  if banked_units ≤ 0 then
    ({ banking_cost := 0, dsm_units := 0, cycle := Cycle.NO_CHARGE
       units_available_after := units_available_before
       weighted_average := weighted_average_mod, market_purchase := 0
       plants_with_usage := zeroUse }, ⟨0, Cycle.NO_CHARGE⟩)
  else if 0 < s_d then
    if banked_units ≤ s_d then
      if in_dsm_window_ts ts = false then
        if units_available_before = 0 then
          ({ banking_cost := 0, dsm_units := banked_units, cycle := Cycle.CHARGE
             units_available_after := units_available_before
             weighted_average := weighted_average_mod, market_purchase := 0
             plants_with_usage := zeroUse }, ⟨0, Cycle.CHARGE⟩)
        else if banked_units < units_available_before then
          ({ banking_cost := 0, dsm_units := 0, cycle := Cycle.CHARGE
             units_available_after := units_available_before - banked_units
             weighted_average := weighted_average_mod, market_purchase := 0
             plants_with_usage := zeroUse }, ⟨banked_units, Cycle.CHARGE⟩)
        else
          ({ banking_cost := 0, dsm_units := banked_units - units_available_before
             cycle := Cycle.CHARGE, units_available_after := 0
             weighted_average := weighted_average_mod, market_purchase := 0
             plants_with_usage := zeroUse }, ⟨units_available_before, Cycle.CHARGE⟩)
      else
        ({ banking_cost := 0, dsm_units := banked_units, cycle := Cycle.NO_CHARGE
           units_available_after := units_available_before
           weighted_average := weighted_average_mod, market_purchase := 0
           plants_with_usage := zeroUse }, ⟨banked_units, Cycle.NO_CHARGE⟩)
    else
      let balanced_units := banked_units - s_d
      let t := calculate_weighted_average_for_quantum (bandsOf plants) balanced_units
      let market := if t.2.2 ≤ balanced_units then balanced_units - t.2.2 else 0
      let cost := if t.2.2 ≤ balanced_units then t.2.1 + market * min dam rtm else t.2.1
      ({ banking_cost := cost, dsm_units := 0, cycle := Cycle.NO_CHARGE
         units_available_after := units_available_before
         weighted_average := t.1, market_purchase := market
         plants_with_usage := allocate_used_for_quantum_desc plants balanced_units },
       ⟨banked_units, Cycle.NO_CHARGE⟩)
  else
    if total_backdown_units < banked_units then
      ({ banking_cost := total_backdown_cost +
            (banked_units - total_backdown_units) * min dam rtm
         dsm_units := 0, cycle := Cycle.NO_CHARGE
         units_available_after := units_available_before
         weighted_average := weighted_average_mod
         market_purchase := banked_units - total_backdown_units
         plants_with_usage := allocate_used_for_quantum_desc plants total_backdown_units },
       ⟨banked_units, Cycle.NO_CHARGE⟩)
    else
      let t := calculate_weighted_average_for_quantum (bandsOf plants) banked_units
      ({ banking_cost := t.1 * banked_units, dsm_units := 0, cycle := Cycle.NO_CHARGE
         units_available_after := units_available_before
         weighted_average := t.1, market_purchase := 0
         plants_with_usage := allocate_used_for_quantum_desc plants banked_units },
       ⟨banked_units, Cycle.NO_CHARGE⟩)

/-- `decide_banking`: the pure decision plus its single battery upsert. -/
def decide_banking (ts : Int)
    (banked_units scheduled_generation drawl weighted_average_mod
      mod dam rtm market_purchase_input
      total_backdown_units total_backdown_cost units_available_before : ℚ)
    (plants : List PlantRow) (s : Store) : BankOut × Store :=
  let r := decide_banking_core ts banked_units scheduled_generation drawl
    weighted_average_mod mod dam rtm market_purchase_input
    total_backdown_units total_backdown_cost units_available_before plants
  (r.1, upsert_battery_status ts r.2.qty r.2.cycle s)

structure AdjOut where
  adjustment_charges : ℚ
  battery_used : ℚ
  balance_units : ℚ
  units_available_after : ℚ
  highest_rate : ℚ
  battery_charge_rate : ℚ
deriving DecidableEq, Repr

/-- Pure core of `compute_adjustment` given the fetched pre-state
`units_before`; the second component is the argument of the
`upsert_battery_status` call (none when `adjusted_units ≤ 0`). -/
def compute_adjustment_core (ts : Int) (adjusted_units mod dam rtm units_before : ℚ) :
    AdjOut × Option BankAction :=
  let battery_charge_rate : ℚ := 4
  let highest_rate := max (max mod dam) rtm
  let battery_units :=
    if 0 < units_before then TOTAL_BATTERY_CAPACITY - units_before
    else TOTAL_BATTERY_CAPACITY
  if adjusted_units ≤ 0 then
    ({ adjustment_charges := 0, battery_used := 0, balance_units := 0
       units_available_after := units_before, highest_rate := highest_rate
       battery_charge_rate := battery_charge_rate }, none)
  else if in_dsm_window_ts ts then
    if adjusted_units < battery_units then
      ({ adjustment_charges := adjusted_units * battery_charge_rate
         battery_used := adjusted_units, balance_units := 0
         units_available_after := adjusted_units + units_before
         highest_rate := highest_rate, battery_charge_rate := battery_charge_rate },
       some ⟨adjusted_units, Cycle.USE⟩)
    else
      ({ adjustment_charges := battery_units * battery_charge_rate +
            (adjusted_units - battery_units) * highest_rate
         battery_used := battery_units
         balance_units := adjusted_units - battery_units
         units_available_after := battery_units + units_before
         highest_rate := highest_rate, battery_charge_rate := battery_charge_rate },
       some ⟨battery_units, Cycle.USE⟩)
  else
    ({ adjustment_charges := adjusted_units * highest_rate
       battery_used := 0, balance_units := 0
       units_available_after := units_before, highest_rate := highest_rate
       battery_charge_rate := battery_charge_rate },
     some ⟨adjusted_units, Cycle.NO_CHARGE⟩)

/-- Apply an optional battery upsert. -/
def applyAction (ts : Int) (act : Option BankAction) (s : Store) : Store :=
  match act with
  | none => s
  | some a => upsert_battery_status ts a.qty a.cycle s

/-- `compute_adjustment`: fetches the battery state from the store (with
the strictly-before-`ts` lookup) and applies the pure core. -/
def compute_adjustment (ts : Int) (adjusted_units mod dam rtm : ℚ) (s : Store) :
    AdjOut × Store :=
  let r := compute_adjustment_core ts adjusted_units mod dam rtm
    (fetch_battery_status ts s).units
  (r.1, applyAction ts r.2 s)

/-! The consolidated route `calculate_consolidated` (`/calculate/v2`). -/

/-- External inputs of one consolidated run: the documents the route reads
for the requested block.  `none` models a missing record; the plant cursor
is a (possibly empty) list. -/
structure Inputs where
  fuel_map : List (String × String)
  plants : List RawPlant
  banking : Option (ℚ × ℚ)
  demand : Option (ℚ × ℚ)
  market : Option (ℚ × ℚ × ℚ)
  last_price : Option ℚ
deriving DecidableEq, Repr

/-- Route-level failure: `notFound` is the HTTP 404 raised for a missing
record inside the handler's `try`; `internal` is an exception escaping the
handler (the uncaught `LookupError` of an unprepared price cache). -/
inductive RouteErr
  | notFound (which : String)
  | internal (msg : String)
deriving DecidableEq, Repr

/-- `compute_totals`: totals over the given plant list, weighted average
guarded on zero units, and the MOD rate from `Demand_Output.Last_Price`
with the first-plant fallback. -/
def compute_totals (plants_list : List PlantRow) (last_price : Option ℚ) :
    ℚ × ℚ × ℚ × ℚ :=
  let t_units := (plants_list.map (fun p => p.backdown_units)).sum
  let t_cost := (plants_list.map (fun p => p.backdown_cost)).sum
  let wav := if 0 < t_units then t_cost / t_units else 0
  let modr :=
    match last_price with
    | some m => m
    | none => ((plants_list.head?).map (fun p => p.vc)).getD 0
  (t_units, t_cost, wav, modr)

/-- The settlement document assembled by `calculate_consolidated`
(`updated_at` audit metadata and the string mirror of the timestamp are
not modelled). -/
structure ConsolidatedResult where
  ts : Int
  banked_units : ℚ
  adjusted_units : ℚ
  schedule_generation : ℚ
  total_drawl : ℚ
  dam_rate : ℚ
  rtm_rate : ℚ
  plant_backdown_data : List Usage
  total_backdown_units : ℚ
  total_backdown_cost : ℚ
  weighted_avg_rate : ℚ
  mod_rate : ℚ
  highest_rate : ℚ
  banking_cost : ℚ
  dsm : ℚ
  banking_cycle : Cycle
  adjustment_charges : ℚ
  battery_units_used_for_adjustment : ℚ
  market_purchase : ℚ
  battery_charge_rate : ℚ
  battery_units_before_banking : ℚ
  battery_units_available_after_banking : ℚ
  units_used_to_charge : ℚ
  units_used_to_adjust : ℚ
  battery_units_after_adjustment : ℚ
deriving Inhabited

/-- Assembly of the response document from the fetched inputs and the two
decision outputs. -/
def assembleResult (ts : Int) (banked_units adjusted_units scheduled_generation
    drawl dam rtm : ℚ) (plants_asc : List PlantRow)
    (total_backdown_units total_backdown_cost modr u0 : ℚ)
    (bank : BankOut) (adj : AdjOut) : ConsolidatedResult :=
  { ts := ts
    banked_units := banked_units
    adjusted_units := adjusted_units
    schedule_generation := scheduled_generation
    total_drawl := drawl
    dam_rate := dam
    rtm_rate := rtm
    plant_backdown_data :=
      sortByKey (fun u => u.row.vc)
        (if bank.plants_with_usage = []
         then (plants_asc.reverse).map (fun p => ⟨p, 0⟩)
         else bank.plants_with_usage)
    total_backdown_units := total_backdown_units
    total_backdown_cost := total_backdown_cost
    weighted_avg_rate := bank.weighted_average
    mod_rate := modr
    highest_rate := max (max modr dam) rtm
    banking_cost := bank.banking_cost
    dsm := bank.dsm_units
    banking_cycle := bank.cycle
    adjustment_charges := adj.adjustment_charges
    battery_units_used_for_adjustment := adj.battery_used
    market_purchase := adj.balance_units + bank.market_purchase
    battery_charge_rate := adj.battery_charge_rate
    battery_units_before_banking := u0
    battery_units_available_after_banking := bank.units_available_after
    units_used_to_charge := u0 - bank.units_available_after
    units_used_to_adjust := adj.units_available_after - bank.units_available_after
    battery_units_after_adjustment := adj.units_available_after }

/-- `calculate_consolidated` of `consolidated_2.py`: parse (not modelled —
`ts` is the resolved block timestamp), prepare the plant rows, fetch the
four inputs (missing ⇒ 404; the battery fetch never fails), run banking
then adjustment in order, assemble and return the settlement document and
the final store.  When no plant rows exist, the price cache is not built
and `decide_banking`'s first cache access raises an uncaught `LookupError`
(an internal error, not a 404). -/
def calculate_consolidated (inp : Inputs) (ts : Int) (store : Store) :
    Except RouteErr (ConsolidatedResult × Store) :=
  match inp.banking with
  | none => Except.error (RouteErr.notFound "banking_data")
  | some (banked_units, adjusted_units) =>
    match inp.demand with
    | none => Except.error (RouteErr.notFound "Demand_Drawl")
    | some (scheduled_generation, drawl) =>
      match inp.market with
      | none => Except.error (RouteErr.notFound "market_price_data")
      | some (dam, rtm, market_purchase_in) =>
        let plants_asc := fetch_plants_prepare inp.fuel_map inp.plants
        if plants_asc = [] then
          Except.error (RouteErr.internal "Prefix cache not prepared for timestamp")
        else
          let tot := compute_totals plants_asc.reverse inp.last_price
          let u0 := (fetch_battery_status ts store).units
          let bank := decide_banking_core ts banked_units scheduled_generation drawl
            tot.2.2.1 tot.2.2.2 dam rtm market_purchase_in
            tot.1 tot.2.1 u0 plants_asc
          let s1 := upsert_battery_status ts bank.2.qty bank.2.cycle store
          let adj := compute_adjustment_core ts adjusted_units tot.2.2.2 dam rtm
            (fetch_battery_status ts s1).units
          let s2 := applyAction ts adj.2 s1
          Except.ok
            (assembleResult ts banked_units adjusted_units scheduled_generation
              drawl dam rtm plants_asc tot.1 tot.2.1 tot.2.2.2 u0 bank.1 adj.1, s2)

/-- The settlement document of a route outcome, when it succeeded. -/
def resultOf (e : Except RouteErr (ConsolidatedResult × Store)) :
    Option ConsolidatedResult :=
  (e.toOption).map Prod.fst

/-! Concrete inputs used by evaluation theorems and witnesses. -/

/-- A single non-thermal plant with 100 backdown units at VC 2
(`DC = 10`, `SG = 9.6`). -/
def demoPlantsC2 : List PlantRow := fetch_plants_prepare [] [⟨"P1", 10, 48 / 5, 2⟩]

/-- C2 (evaluation at the failing input): in the `0 < surplus < banked_units`
branch with `balanced = 200` exceeding the 100 available backdown units and
`min(dam, rtm) = 1`, the code reports `market_purchase = 0` and prices the
whole 200 through the prefix extrapolation (total 400 = 200 + 100 × VC 2),
instead of 100 market-purchase units at rate 1 (total 300): the comparison
`balanced_units >= total_backdown_units_used` tests `balanced` against the
pricing function's third return, which is `q = balanced` itself. -/
theorem banking_balanced_branch_eval :
    (decide_banking_core 0 300 100 0 0 0 1 1 0 100 200 500
        demoPlantsC2).1.market_purchase = 0 ∧
    (decide_banking_core 0 300 100 0 0 0 1 1 0 100 200 500
        demoPlantsC2).1.banking_cost = 400 ∧
    (300 : ℚ) - max (100 - 0) 0 = 200 ∧ (100 : ℚ) < 200 ∧ min (1 : ℚ) 1 = 1 := by
  refine ⟨?_, ?_, by norm_num, by norm_num, by norm_num⟩ <;>
    norm_num [decide_banking_core, demoPlantsC2, fetch_plants_prepare, sortByKey,
      insertByKey, mkPlantRow, fuelOf, backdown_units_calc, bandsOf,
      calculate_weighted_average_for_quantum, quantumCost, bisectLeft, cumUnits,
      cumCost, allocate_used_for_quantum_desc, allocUsedAsc, List.findIdx_cons,
      List.findIdx_nil, max_def, min_def, in_dsm_window_ts, in_dsm_window,
      tmOfMinutes, timeLE, timeLT]

/-- Inputs of the C4 evaluation run: a thermal plant, `banked = 400` with
surplus 1000 so banking fully charges, `adjusted = 50`, block at 00:00. -/
def demoInputsC4 : Inputs :=
  ⟨[("P1", "Thermal")], [⟨"P1", 10, 4, 2⟩], some (400, 50), some (1000, 0),
    some (1, 1, 0), some 5⟩

/-- Prior-block battery record with headroom 1000 for the C4 run. -/
def demoStoreC4 : Store := [⟨-15, 1000, Cycle.NO_CHARGE⟩]

/-- The settlement document the C4 demo run computes. -/
def demoResultC4 : ConsolidatedResult :=
  ⟨0, 400, 50, 1000, 0, 1, 1, [⟨⟨"P1", "Thermal", 10, 4, 2, 1500, 3000⟩, 0⟩],
    1500, 3000, 2, 5, 5, 0, 0, Cycle.CHARGE, 250, 0, 0, 4, 1000, 600, 400, 400, 1000⟩

/-- The store the C4 demo run leaves behind: the adjustment's upsert
(computed from the prior-block headroom 1000) overwrites banking's
600-headroom record at the same timestamp. -/
def demoStore2C4 : Store := [⟨0, 1000, Cycle.NO_CHARGE⟩, ⟨-15, 1000, Cycle.NO_CHARGE⟩]

/-- Evaluation of the route at the C4 demo inputs. -/
theorem demoRunC4_eq :
    calculate_consolidated demoInputsC4 0 demoStoreC4 =
      Except.ok (demoResultC4, demoStore2C4) := by
  norm_num [calculate_consolidated, demoInputsC4, demoStoreC4, demoResultC4,
    demoStore2C4, fetch_plants_prepare, sortByKey, insertByKey, mkPlantRow, fuelOf,
    backdown_units_calc, compute_totals, fetch_battery_status, latestBefore,
    betterRec, TOTAL_BATTERY_CAPACITY, decide_banking_core,
    allocate_used_for_quantum_desc, allocUsedAsc, bandsOf,
    calculate_weighted_average_for_quantum, quantumCost, bisectLeft, cumUnits,
    cumCost, in_dsm_window_ts, in_dsm_window, tmOfMinutes, timeLE, timeLT,
    upsert_battery_status, upsertRecord, compute_adjustment_core, applyAction,
    assembleResult, List.findIdx_cons, List.findIdx_nil, max_def, min_def,
    List.filter, Option.getD]

/-- C4 (evaluation at the failing input): banking charges 400 out of the
1000 pre-block headroom (post-banking headroom 600), but the adjustment
step starts from a fresh strictly-before-`ts` store read and therefore
from the pre-banking 1000: with no buffer movement in adjustment
(`battery_used = 0`, outside a DSM window) it still reports 1000, not the
just-computed 600. -/
theorem adjustment_stale_headroom_eval :
    (resultOf (calculate_consolidated demoInputsC4 0 demoStoreC4)).map
        (fun r => r.battery_units_available_after_banking) = some 600 ∧
    (resultOf (calculate_consolidated demoInputsC4 0 demoStoreC4)).map
        (fun r => r.battery_units_after_adjustment) = some 1000 ∧
    (resultOf (calculate_consolidated demoInputsC4 0 demoStoreC4)).map
        (fun r => r.battery_units_used_for_adjustment) = some 0 := by
  refine ⟨?_, ?_, ?_⟩ <;>
    simp [resultOf, demoRunC4_eq, demoResultC4, Except.toOption]

/-- C5 (counterexample): in the `0 < surplus < banked_units` branch
(banked 300, surplus 100), DSM units, buffer-absorbed units
(headroom before − after) and market-purchase units sum to 0, not to the
banked 300: the surplus-consumed and backdown-priced portions are neither
DSM nor buffer nor market quantities. -/
theorem banking_conservation_counterexample :
    (decide_banking_core 0 300 100 0 0 0 1 1 0 100 200 500
        demoPlantsC2).1.dsm_units +
      (500 - (decide_banking_core 0 300 100 0 0 0 1 1 0 100 200 500
        demoPlantsC2).1.units_available_after) +
      (decide_banking_core 0 300 100 0 0 0 1 1 0 100 200 500
        demoPlantsC2).1.market_purchase = 0 ∧
    (0 : ℚ) ≠ 300 := by
  refine ⟨?_, by norm_num⟩
  norm_num [decide_banking_core, demoPlantsC2, fetch_plants_prepare, sortByKey,
    insertByKey, mkPlantRow, fuelOf, backdown_units_calc, bandsOf,
    calculate_weighted_average_for_quantum, quantumCost, bisectLeft, cumUnits,
    cumCost, allocate_used_for_quantum_desc, allocUsedAsc, List.findIdx_cons,
    List.findIdx_nil, max_def, min_def, in_dsm_window_ts, in_dsm_window,
    tmOfMinutes, timeLE, timeLT]

/-- C5 (amended): when the banked quantity is positive and fully covered by
the schedule surplus (`banked_units ≤ surplus`), DSM units plus
buffer-absorbed units (headroom before − after) plus market-purchase units
sum exactly to `banked_units`. -/
theorem banking_conservation_surplus_branch (ts : Int)
    (banked_units scheduled_generation drawl weighted_average_mod mod dam rtm
      market_purchase_input total_backdown_units total_backdown_cost
      units_available_before : ℚ) (plants : List PlantRow)
    (hb : 0 < banked_units)
    (hs : banked_units ≤ max (scheduled_generation - drawl) 0) :
    (decide_banking_core ts banked_units scheduled_generation drawl
        weighted_average_mod mod dam rtm market_purchase_input
        total_backdown_units total_backdown_cost units_available_before
        plants).1.dsm_units +
      (units_available_before -
        (decide_banking_core ts banked_units scheduled_generation drawl
          weighted_average_mod mod dam rtm market_purchase_input
          total_backdown_units total_backdown_cost units_available_before
          plants).1.units_available_after) +
      (decide_banking_core ts banked_units scheduled_generation drawl
        weighted_average_mod mod dam rtm market_purchase_input
        total_backdown_units total_backdown_cost units_available_before
        plants).1.market_purchase = banked_units := by
  have h1 : ¬ banked_units ≤ 0 := not_le.mpr hb
  have h2 : 0 < max (scheduled_generation - drawl) 0 := lt_of_lt_of_le hb hs
  simp only [decide_banking_core, if_neg h1, if_pos h2, if_pos hs]
  by_cases hd : in_dsm_window_ts ts = false
  · rw [if_pos hd]
    by_cases hu0 : units_available_before = 0
    · rw [if_pos hu0]
      simp
    · rw [if_neg hu0]
      by_cases hgt : banked_units < units_available_before
      · rw [if_pos hgt]
        simp
      · rw [if_neg hgt]
        simp
  · rw [if_neg hd]
    simp

/-- Witness for the amended C5 at a concrete partial-charge input
(banked 100, surplus 150, headroom 30: DSM 70 + absorbed 30 + market 0). -/
theorem banking_conservation_surplus_branch_witness :
    (decide_banking_core 0 100 200 50 0 0 1 1 0 100 200 30
        demoPlantsC2).1.dsm_units +
      (30 - (decide_banking_core 0 100 200 50 0 0 1 1 0 100 200 30
        demoPlantsC2).1.units_available_after) +
      (decide_banking_core 0 100 200 50 0 0 1 1 0 100 200 30
        demoPlantsC2).1.market_purchase = 100 :=
  banking_conservation_surplus_branch 0 100 200 50 0 0 1 1 0 100 200 30
    demoPlantsC2 (by norm_num) (by norm_num)

/-- Inputs with every per-block record present but no plant rows. -/
def demoInputsC9 : Inputs := ⟨[], [], some (1, 1), some (1, 1), some (1, 1, 1), none⟩

/-- C9 (counterexample): with banking, demand-drawl and market-price
records all present but no plant-generation rows, the request fails with
an internal error (the uncaught `LookupError` of the unbuilt price cache),
not with a not-found rejection. -/
theorem missing_plants_internal_error :
    calculate_consolidated demoInputsC9 540 [] =
      Except.error (RouteErr.internal "Prefix cache not prepared for timestamp") := rfl

/-- C9 (amended): missing banking, demand-drawl or market-price records are
rejected with a not-found status (in that checking order); a missing
plant-generation record instead escapes as an internal error; and a
missing buffer-status record is never rejected — the synthetic
full-capacity record is substituted and the computation succeeds (the
store, including the empty one, never causes a failure). -/
theorem missing_record_statuses (inp : Inputs) (ts : Int) (store : Store) :
    (inp.banking = none →
      calculate_consolidated inp ts store =
        Except.error (RouteErr.notFound "banking_data")) ∧
    (∀ b, inp.banking = some b → inp.demand = none →
      calculate_consolidated inp ts store =
        Except.error (RouteErr.notFound "Demand_Drawl")) ∧
    (∀ b d, inp.banking = some b → inp.demand = some d → inp.market = none →
      calculate_consolidated inp ts store =
        Except.error (RouteErr.notFound "market_price_data")) ∧
    (∀ b d m, inp.banking = some b → inp.demand = some d → inp.market = some m →
      inp.plants = [] →
      calculate_consolidated inp ts store =
        Except.error (RouteErr.internal "Prefix cache not prepared for timestamp")) ∧
    (∀ b d m, inp.banking = some b → inp.demand = some d → inp.market = some m →
      inp.plants ≠ [] →
      ∃ r s2, calculate_consolidated inp ts store = Except.ok (r, s2)) := by
  refine ⟨?_, ?_, ?_, ?_, ?_⟩
  · intro h
    simp only [calculate_consolidated, h]
  · intro b hb hd
    obtain ⟨b1, b2⟩ := b
    simp only [calculate_consolidated, hb, hd]
  · intro b d hb hd hm
    obtain ⟨b1, b2⟩ := b
    obtain ⟨d1, d2⟩ := d
    simp only [calculate_consolidated, hb, hd, hm]
  · intro b d m hb hd hm hpl
    obtain ⟨b1, b2⟩ := b
    obtain ⟨d1, d2⟩ := d
    obtain ⟨m1, m2, m3⟩ := m
    have hpe : fetch_plants_prepare inp.fuel_map inp.plants = [] := by
      rw [hpl]
      rfl
    simp only [calculate_consolidated, hb, hd, hm, hpe, if_pos]
  · intro b d m hb hd hm hne
    obtain ⟨b1, b2⟩ := b
    obtain ⟨d1, d2⟩ := d
    obtain ⟨m1, m2, m3⟩ := m
    have hpne : fetch_plants_prepare inp.fuel_map inp.plants ≠ [] := by
      intro hnil
      have hlen := congrArg List.length hnil
      simp only [fetch_plants_prepare, List.length_map, length_sortByKey,
        List.length_nil] at hlen
      exact hne (List.length_eq_zero.mp hlen)
    simp only [calculate_consolidated, hb, hd, hm, if_neg hpne]
    exact ⟨_, _, rfl⟩

/-- Inputs with the banking record missing. -/
def demoInputsC9b : Inputs := ⟨[], [], none, none, none, none⟩

/-- Witness for the amended C9: a missing banking record yields the
banking not-found rejection. -/
theorem missing_record_statuses_witness :
    calculate_consolidated demoInputsC9b 0 [] =
      Except.error (RouteErr.notFound "banking_data") :=
  (missing_record_statuses demoInputsC9b 0 []).1 rfl

/-! Store invariants (C6) and idempotence (C7). -/

theorem fetch_applyAction (ts : Int) (act : Option BankAction) (s : Store) :
    fetch_battery_status ts (applyAction ts act s) = fetch_battery_status ts s := by
  cases act with
  | none => rfl
  | some a => exact fetch_upsert ts a.qty a.cycle s

theorem fetch_after_run (inp : Inputs) (ts : Int) (store : Store)
    (r : ConsolidatedResult) (t : Store)
    (h : calculate_consolidated inp ts store = Except.ok (r, t)) :
    fetch_battery_status ts t = fetch_battery_status ts store := by
  cases hb : inp.banking with
  | none =>
    simp only [calculate_consolidated, hb] at h
    exact absurd h (by simp)
  | some b =>
    obtain ⟨b1, b2⟩ := b
    cases hd : inp.demand with
    | none =>
      simp only [calculate_consolidated, hb, hd] at h
      exact absurd h (by simp)
    | some d =>
      obtain ⟨d1, d2⟩ := d
      cases hm : inp.market with
      | none =>
        simp only [calculate_consolidated, hb, hd, hm] at h
        exact absurd h (by simp)
      | some m =>
        obtain ⟨m1, m2, m3⟩ := m
        by_cases hpe : fetch_plants_prepare inp.fuel_map inp.plants = []
        · simp only [calculate_consolidated, hb, hd, hm, if_pos hpe] at h
          exact absurd h (by simp)
        · simp only [calculate_consolidated, hb, hd, hm, if_neg hpe] at h
          rw [Except.ok.injEq, Prod.mk.injEq] at h
          obtain ⟨-, ht⟩ := h
          rw [← ht, fetch_applyAction, fetch_upsert]

theorem run_map_fst_congr (inp : Inputs) (ts : Int) (s s' : Store)
    (h : fetch_battery_status ts s = fetch_battery_status ts s') :
    (calculate_consolidated inp ts s).map Prod.fst =
      (calculate_consolidated inp ts s').map Prod.fst := by
  cases hb : inp.banking with
  | none => simp only [calculate_consolidated, hb]
  | some b =>
    obtain ⟨b1, b2⟩ := b
    cases hd : inp.demand with
    | none => simp only [calculate_consolidated, hb, hd]
    | some d =>
      obtain ⟨d1, d2⟩ := d
      cases hm : inp.market with
      | none => simp only [calculate_consolidated, hb, hd, hm]
      | some m =>
        obtain ⟨m1, m2, m3⟩ := m
        by_cases hpe : fetch_plants_prepare inp.fuel_map inp.plants = []
        · simp only [calculate_consolidated, hb, hd, hm, if_pos hpe]
        · simp only [calculate_consolidated, hb, hd, hm, if_neg hpe,
            fetch_upsert, h, Except.map]

/-- C7: re-running the consolidated computation for the same block with the
same external inputs, starting from the store the first run produced,
returns the identical settlement document (the store writes are upserts
keyed by the block timestamp, invisible to the strictly-before reads). -/
theorem consolidated_idempotent (inp : Inputs) (ts : Int) (store : Store)
    (r1 : ConsolidatedResult) (t1 : Store)
    (h : calculate_consolidated inp ts store = Except.ok (r1, t1)) :
    ∃ t2, calculate_consolidated inp ts t1 = Except.ok (r1, t2) := by
  have hf := fetch_after_run inp ts store r1 t1 h
  have hc := run_map_fst_congr inp ts t1 store hf
  rw [h] at hc
  cases e : calculate_consolidated inp ts t1 with
  | error err =>
    rw [e] at hc
    simp [Except.map] at hc
  | ok p =>
    obtain ⟨r2, t2⟩ := p
    rw [e] at hc
    simp only [Except.map] at hc
    have hr : r2 = r1 := by
      injection hc
    exact ⟨t2, by rw [hr]⟩

/-- Witness for C7: the demo run, repeated on its own output store,
returns the identical document. -/
theorem consolidated_idempotent_witness :
    ∃ t2, calculate_consolidated demoInputsC4 0 demoStore2C4 =
      Except.ok (demoResultC4, t2) :=
  consolidated_idempotent demoInputsC4 0 demoStoreC4 demoResultC4 demoStore2C4
    demoRunC4_eq

/-- The headroom bounds of the spec: every record is between 0 and the
configured total capacity. -/
def BatteryInvariant (s : Store) : Prop :=
  ∀ r ∈ s, 0 ≤ r.units ∧ r.units ≤ TOTAL_BATTERY_CAPACITY

theorem fetch_bounds (ts : Int) (s : Store) (h : BatteryInvariant s) :
    0 ≤ (fetch_battery_status ts s).units ∧
      (fetch_battery_status ts s).units ≤ TOTAL_BATTERY_CAPACITY := by
  rw [fetch_battery_status]
  cases e : latestBefore ts s with
  | none =>
    constructor
    · norm_num [TOTAL_BATTERY_CAPACITY]
    · norm_num
  | some b =>
    simpa using h b (latestBefore_mem ts s b e)

theorem invariant_upsertRecord (ts : Int) (u : ℚ) (c : Cycle) (s : Store)
    (h : BatteryInvariant s) (hu : 0 ≤ u) (hu2 : u ≤ TOTAL_BATTERY_CAPACITY) :
    BatteryInvariant (upsertRecord ts u c s) := by
  intro r hr
  rcases List.mem_cons.mp hr with rfl | hr'
  · exact ⟨hu, hu2⟩
  · exact h r (List.mem_of_mem_filter hr')

theorem invariant_upsert_battery (ts : Int) (qty : ℚ) (c : Cycle) (s : Store)
    (h : BatteryInvariant s)
    (hc : (c = Cycle.CHARGE ∧ 0 ≤ qty) ∨ c = Cycle.NO_CHARGE ∨
      (c = Cycle.USE ∧ 0 ≤ (fetch_battery_status ts s).units + qty ∧
        (fetch_battery_status ts s).units + qty ≤ TOTAL_BATTERY_CAPACITY)) :
    BatteryInvariant (upsert_battery_status ts qty c s) := by
  have hfb := fetch_bounds ts s h
  rcases hc with ⟨rfl, hq⟩ | rfl | ⟨rfl, h1, h2⟩
  · exact invariant_upsertRecord ts _ _ s h (le_max_right _ _)
      (max_le (by linarith [hfb.2]) (by norm_num [TOTAL_BATTERY_CAPACITY]))
  · exact invariant_upsertRecord ts _ _ s h hfb.1 hfb.2
  · exact invariant_upsertRecord ts _ _ s h h1 h2

theorem bank_action_sound (ts : Int)
    (banked_units scheduled_generation drawl weighted_average_mod mod dam rtm
      market_purchase_input total_backdown_units total_backdown_cost
      units_available_before : ℚ) (plants : List PlantRow)
    (hu : 0 ≤ units_available_before) :
    ((decide_banking_core ts banked_units scheduled_generation drawl
        weighted_average_mod mod dam rtm market_purchase_input
        total_backdown_units total_backdown_cost units_available_before
        plants).2.cycle = Cycle.CHARGE ∧
      0 ≤ (decide_banking_core ts banked_units scheduled_generation drawl
        weighted_average_mod mod dam rtm market_purchase_input
        total_backdown_units total_backdown_cost units_available_before
        plants).2.qty) ∨
    (decide_banking_core ts banked_units scheduled_generation drawl
      weighted_average_mod mod dam rtm market_purchase_input
      total_backdown_units total_backdown_cost units_available_before
      plants).2.cycle = Cycle.NO_CHARGE := by
  simp only [decide_banking_core]
  by_cases h1 : banked_units ≤ 0
  · rw [if_pos h1]
    right
    rfl
  · rw [if_neg h1]
    by_cases h2 : 0 < max (scheduled_generation - drawl) 0
    · rw [if_pos h2]
      by_cases h3 : banked_units ≤ max (scheduled_generation - drawl) 0
      · rw [if_pos h3]
        by_cases h4 : in_dsm_window_ts ts = false
        · rw [if_pos h4]
          by_cases h5 : units_available_before = 0
          · rw [if_pos h5]
            left
            exact ⟨rfl, le_refl 0⟩
          · rw [if_neg h5]
            by_cases h6 : banked_units < units_available_before
            · rw [if_pos h6]
              left
              exact ⟨rfl, by linarith [lt_of_not_le h1]⟩
            · rw [if_neg h6]
              left
              exact ⟨rfl, hu⟩
        · rw [if_neg h4]
          right
          rfl
      · rw [if_neg h3]
        right
        rfl
    · rw [if_neg h2]
      by_cases h7 : total_backdown_units < banked_units
      · rw [if_pos h7]
        right
        rfl
      · rw [if_neg h7]
        right
        rfl

theorem adjustment_preserves_invariant (ts : Int) (adjusted mod dam rtm : ℚ)
    (s1 : Store) (hinv : BatteryInvariant s1) :
    BatteryInvariant (applyAction ts
      (compute_adjustment_core ts adjusted mod dam rtm
        (fetch_battery_status ts s1).units).2 s1) := by
  have hub := fetch_bounds ts s1 hinv
  simp only [compute_adjustment_core]
  by_cases h0 : adjusted ≤ 0
  · rw [if_pos h0]
    exact hinv
  · rw [if_neg h0]
    have hpos : 0 < adjusted := lt_of_not_le h0
    by_cases hdsm : in_dsm_window_ts ts = true
    · rw [if_pos hdsm]
      by_cases hlt : adjusted <
          (if 0 < (fetch_battery_status ts s1).units
           then TOTAL_BATTERY_CAPACITY - (fetch_battery_status ts s1).units
           else TOTAL_BATTERY_CAPACITY)
      · rw [if_pos hlt]
        show BatteryInvariant (upsert_battery_status ts adjusted Cycle.USE s1)
        apply invariant_upsert_battery ts _ _ s1 hinv
        right; right
        refine ⟨rfl, by linarith [hub.1], ?_⟩
        by_cases hup : 0 < (fetch_battery_status ts s1).units
        · rw [if_pos hup] at hlt
          linarith
        · rw [if_neg hup] at hlt
          have : (fetch_battery_status ts s1).units = 0 := le_antisymm (not_lt.mp hup) hub.1
          linarith
      · rw [if_neg hlt]
        show BatteryInvariant (upsert_battery_status ts
          (if 0 < (fetch_battery_status ts s1).units
           then TOTAL_BATTERY_CAPACITY - (fetch_battery_status ts s1).units
           else TOTAL_BATTERY_CAPACITY) Cycle.USE s1)
        apply invariant_upsert_battery ts _ _ s1 hinv
        right; right
        refine ⟨rfl, ?_, ?_⟩
        · by_cases hup : 0 < (fetch_battery_status ts s1).units
          · rw [if_pos hup]
            have : 0 ≤ TOTAL_BATTERY_CAPACITY := by norm_num [TOTAL_BATTERY_CAPACITY]
            linarith [hub.2]
          · rw [if_neg hup]
            have : 0 ≤ TOTAL_BATTERY_CAPACITY := by norm_num [TOTAL_BATTERY_CAPACITY]
            linarith [hub.1]
        · by_cases hup : 0 < (fetch_battery_status ts s1).units
          · rw [if_pos hup]
            linarith
          · rw [if_neg hup]
            have : (fetch_battery_status ts s1).units = 0 :=
              le_antisymm (not_lt.mp hup) hub.1
            linarith
    · rw [if_neg hdsm]
      show BatteryInvariant (upsert_battery_status ts adjusted Cycle.NO_CHARGE s1)
      apply invariant_upsert_battery ts _ _ s1 hinv
      right; left
      rfl

theorem invariant_after_run (inp : Inputs) (ts : Int) (store : Store)
    (r : ConsolidatedResult) (t : Store)
    (hstore : BatteryInvariant store)
    (h : calculate_consolidated inp ts store = Except.ok (r, t)) :
    BatteryInvariant t := by
  cases hb : inp.banking with
  | none =>
    simp only [calculate_consolidated, hb] at h
    exact absurd h (by simp)
  | some b =>
    obtain ⟨b1, b2⟩ := b
    cases hd : inp.demand with
    | none =>
      simp only [calculate_consolidated, hb, hd] at h
      exact absurd h (by simp)
    | some d =>
      obtain ⟨d1, d2⟩ := d
      cases hm : inp.market with
      | none =>
        simp only [calculate_consolidated, hb, hd, hm] at h
        exact absurd h (by simp)
      | some m =>
        obtain ⟨m1, m2, m3⟩ := m
        by_cases hpe : fetch_plants_prepare inp.fuel_map inp.plants = []
        · simp only [calculate_consolidated, hb, hd, hm, if_pos hpe] at h
          exact absurd h (by simp)
        · simp only [calculate_consolidated, hb, hd, hm, if_neg hpe] at h
          rw [Except.ok.injEq, Prod.mk.injEq] at h
          obtain ⟨-, ht⟩ := h
          rw [← ht]
          have hu0 := (fetch_bounds ts store hstore).1
          have hinv1 : BatteryInvariant (upsert_battery_status ts
              (decide_banking_core ts b1 d1 d2
                (compute_totals (fetch_plants_prepare inp.fuel_map inp.plants).reverse
                  inp.last_price).2.2.1
                (compute_totals (fetch_plants_prepare inp.fuel_map inp.plants).reverse
                  inp.last_price).2.2.2 m1 m2 m3
                (compute_totals (fetch_plants_prepare inp.fuel_map inp.plants).reverse
                  inp.last_price).1
                (compute_totals (fetch_plants_prepare inp.fuel_map inp.plants).reverse
                  inp.last_price).2.1
                (fetch_battery_status ts store).units
                (fetch_plants_prepare inp.fuel_map inp.plants)).2.qty
              (decide_banking_core ts b1 d1 d2
                (compute_totals (fetch_plants_prepare inp.fuel_map inp.plants).reverse
                  inp.last_price).2.2.1
                (compute_totals (fetch_plants_prepare inp.fuel_map inp.plants).reverse
                  inp.last_price).2.2.2 m1 m2 m3
                (compute_totals (fetch_plants_prepare inp.fuel_map inp.plants).reverse
                  inp.last_price).1
                (compute_totals (fetch_plants_prepare inp.fuel_map inp.plants).reverse
                  inp.last_price).2.1
                (fetch_battery_status ts store).units
                (fetch_plants_prepare inp.fuel_map inp.plants)).2.cycle store) := by
            apply invariant_upsert_battery ts _ _ store hstore
            rcases bank_action_sound ts b1 d1 d2 _ _ m1 m2 m3 _ _ _ _ hu0 with hch | hnc
            · exact Or.inl hch
            · exact Or.inr (Or.inl hnc)
          exact adjustment_preserves_invariant ts b2 _ m1 m2 _ hinv1

/-- The stores reachable by block computations starting from the empty
buffer-status collection (the first block then reads the synthetic initial
record at full capacity). -/
inductive Reachable : Store → Prop
  | init : Reachable []
  | step (inp : Inputs) (ts : Int) (store : Store) (r : ConsolidatedResult)
      (t : Store) : Reachable store →
      calculate_consolidated inp ts store = Except.ok (r, t) → Reachable t

/-- C6: every buffer-status record persisted by the banking and adjustment
operations across any reachable sequence of block computations keeps
headroom between 0 and the configured capacity 2823529.412: CHARGE floors
at 0 and never exceeds the previous headroom, and USE discharge is always
bounded by the remaining committed capacity. -/
theorem battery_headroom_invariant (s : Store) (h : Reachable s) :
    BatteryInvariant s := by
  induction h with
  | init =>
    intro r hr
    exact absurd hr (List.not_mem_nil r)
  | step inp ts store r t _ hrun ih =>
    exact invariant_after_run inp ts store r t ih hrun

/-- The settlement document of the C6 demo run, started from the empty
store (the synthetic full-capacity record is the pre-state). -/
def demoResultC6 : ConsolidatedResult :=
  ⟨0, 400, 50, 1000, 0, 1, 1, [⟨⟨"P1", "Thermal", 10, 4, 2, 1500, 3000⟩, 0⟩],
    1500, 3000, 2, 5, 5, 0, 0, Cycle.CHARGE, 250, 0, 0, 4,
    2823529412 / 1000, 2823129412 / 1000, 400, 400, 2823529412 / 1000⟩

/-- Store produced by the C6 demo run from the empty store. -/
def demoStoreC6 : Store := [⟨0, 2823529412 / 1000, Cycle.NO_CHARGE⟩]

/-- Evaluation of the route at the C6 demo inputs from the empty store. -/
theorem demoRunC6_eq :
    calculate_consolidated demoInputsC4 0 [] =
      Except.ok (demoResultC6, demoStoreC6) := by
  norm_num [calculate_consolidated, demoInputsC4, demoResultC6, demoStoreC6,
    fetch_plants_prepare, sortByKey, insertByKey, mkPlantRow, fuelOf,
    backdown_units_calc, compute_totals, fetch_battery_status, latestBefore,
    betterRec, TOTAL_BATTERY_CAPACITY, decide_banking_core,
    allocate_used_for_quantum_desc, allocUsedAsc, bandsOf,
    calculate_weighted_average_for_quantum, quantumCost, bisectLeft, cumUnits,
    cumCost, in_dsm_window_ts, in_dsm_window, tmOfMinutes, timeLE, timeLT,
    upsert_battery_status, upsertRecord, compute_adjustment_core, applyAction,
    assembleResult, List.findIdx_cons, List.findIdx_nil, max_def, min_def,
    List.filter, Option.getD]

/-- Witness for C6 at a concrete reachable store (one block computed from
the empty collection). -/
theorem battery_headroom_invariant_witness : BatteryInvariant demoStoreC6 :=
  battery_headroom_invariant demoStoreC6
    (Reachable.step demoInputsC4 0 [] demoResultC6 demoStoreC6 Reachable.init
      demoRunC6_eq)

/-! The merit-order allocator `_allocate_generation` of
`routes/procurement.py` (allocation and reverse trim; the subsequent
loading-factor costing is outside claim C10). -/

structure PPlant where
  code : String
  variable_cost : ℚ
  min_power : ℚ
  max_power : ℚ
deriving DecidableEq, Repr

structure PlantAlloc where
  plant_code : String
  allocated_gen : ℚ
  min_gen : ℚ
  max_gen : ℚ
deriving DecidableEq, Repr

/-- The allocation loop of `_allocate_generation`: skip plants with
non-positive `Max_Power`; stop when remaining demand is exhausted; the
plant whose `max_power` covers the remainder gets `max(min_power, rem)`
and the loop breaks; otherwise allocate `max_power` and continue.  The
running `total_alloc` is threaded as `rem = net_demand - total_alloc`. -/
def allocLoop : List PPlant → ℚ → List PlantAlloc
  | [], _ => []
  | p :: rest, rem =>
    if p.max_power ≤ 0 then allocLoop rest rem
    else if rem ≤ 0 then []
    else if rem ≤ p.max_power then
      [⟨p.code, max p.min_power rem, p.min_power, p.max_power⟩]
    else
      ⟨p.code, p.max_power, p.min_power, p.max_power⟩ :: allocLoop rest (rem - p.max_power)

/-- The reverse trim loop of `_allocate_generation`, acting on the
already-reversed allocation list: skip entries at their floor, reduce by
`red = reducible if reducible < excess else excess`, and break (leaving
the remaining entries untouched) when the excess is fully absorbed. -/
def trimLoop : List PlantAlloc → ℚ → List PlantAlloc
  | [], _ => []
  | a :: rest, excess =>
    if a.allocated_gen - a.min_gen ≤ 0 then a :: trimLoop rest excess
    else
      let red := if a.allocated_gen - a.min_gen < excess
        then a.allocated_gen - a.min_gen else excess
      if excess - red ≤ 0 then
        ⟨a.plant_code, a.allocated_gen - red, a.min_gen, a.max_gen⟩ :: rest
      else
        ⟨a.plant_code, a.allocated_gen - red, a.min_gen, a.max_gen⟩ ::
          trimLoop rest (excess - red)

/-- `_allocate_generation` (allocation part): `None` models the
`ValueError` raised for non-positive net demand. -/
def _allocate_generation (plants : List PPlant) (net_demand : ℚ) :
    Option (List PlantAlloc) :=
  if net_demand ≤ 0 then none
  else
    let sorted_plants := sortByKey (fun p => p.variable_cost) plants
    let allocation := allocLoop sorted_plants net_demand
    let excess := (allocation.map (fun a => a.allocated_gen)).sum - net_demand
    some (if 0 < excess then (trimLoop allocation.reverse excess).reverse
      else allocation)

/-- Modelled from the spec (claim C10 wording): walk the
ascending-variable-cost list, allocating `max_power` while the remaining
demand exceeds it; the crossing plant gets `max(min_power, remaining)` and
later plants get nothing. -/
def meritWalk : List PPlant → ℚ → List PlantAlloc
  | [], _ => []
  | p :: rest, rem =>
    if p.max_power < rem then
      ⟨p.code, p.max_power, p.min_power, p.max_power⟩ :: meritWalk rest (rem - p.max_power)
    else [⟨p.code, max p.min_power rem, p.min_power, p.max_power⟩]

/-- Modelled from the spec (claim C10 wording): walk the allocations in
reverse, reducing each allocation but never below its own `min_power`
floor, until the excess is absorbed. -/
def meritTrim : List PlantAlloc → ℚ → List PlantAlloc
  | [], _ => []
  | a :: rest, excess =>
    if excess ≤ 0 then a :: rest
    else
      ⟨a.plant_code,
        a.allocated_gen - min excess (max (a.allocated_gen - a.min_gen) 0),
        a.min_gen, a.max_gen⟩ ::
        meritTrim rest (excess - min excess (max (a.allocated_gen - a.min_gen) 0))

/-- Modelled from the spec: the full claim-C10 allocator — sort ascending
by variable cost, walk, then remove any overshoot by the reverse trim. -/
def merit_order_spec (plants : List PPlant) (net_demand : ℚ) :
    Option (List PlantAlloc) :=
  if net_demand ≤ 0 then none
  else
    let sorted_plants := sortByKey (fun p => p.variable_cost) plants
    let allocation := meritWalk sorted_plants net_demand
    let excess := (allocation.map (fun a => a.allocated_gen)).sum - net_demand
    some ((meritTrim allocation.reverse (max excess 0)).reverse)

theorem allocLoop_eq_meritWalk :
    ∀ (l : List PPlant) (rem : ℚ), (∀ p ∈ l, 0 < p.max_power) → 0 < rem →
      allocLoop l rem = meritWalk l rem
  | [], _, _, _ => rfl
  | p :: rest, rem, hmax, hrem => by
    have hp := hmax p (List.mem_cons_self _ _)
    rw [allocLoop, meritWalk, if_neg (not_le.mpr hp), if_neg (not_le.mpr hrem)]
    by_cases h : rem ≤ p.max_power
    · rw [if_pos h, if_neg (not_lt.mpr h)]
    · rw [if_neg h, if_pos (lt_of_not_le h)]
      rw [allocLoop_eq_meritWalk rest (rem - p.max_power)
        (fun q hq => hmax q (List.mem_cons_of_mem _ hq))
        (by linarith [lt_of_not_le h])]

theorem meritTrim_nonpos :
    ∀ (l : List PlantAlloc) (e : ℚ), e ≤ 0 → meritTrim l e = l
  | [], _, _ => rfl
  | a :: rest, e, he => by rw [meritTrim, if_pos he]

theorem trimLoop_eq_meritTrim :
    ∀ (l : List PlantAlloc) (excess : ℚ), 0 < excess →
      trimLoop l excess = meritTrim l excess
  | [], _, _ => rfl
  | a :: rest, excess, hex => by
    simp only [trimLoop, meritTrim, if_neg (not_le.mpr hex)]
    by_cases hred : a.allocated_gen - a.min_gen ≤ 0
    · rw [if_pos hred]
      have h1 : max (a.allocated_gen - a.min_gen) 0 = 0 := max_eq_right hred
      have h2 : min excess (0 : ℚ) = 0 := min_eq_right (le_of_lt hex)
      rw [h1, h2, sub_zero, sub_zero, ← trimLoop_eq_meritTrim rest excess hex]
    · rw [if_neg hred]
      have hrp : 0 < a.allocated_gen - a.min_gen := lt_of_not_le hred
      have hmax2 : max (a.allocated_gen - a.min_gen) 0 = a.allocated_gen - a.min_gen :=
        max_eq_left (le_of_lt hrp)
      rw [hmax2]
      by_cases hc : a.allocated_gen - a.min_gen < excess
      · rw [if_pos hc]
        have hm : min excess (a.allocated_gen - a.min_gen) = a.allocated_gen - a.min_gen :=
          min_eq_right (le_of_lt hc)
        rw [hm, if_neg (by linarith : ¬ excess - (a.allocated_gen - a.min_gen) ≤ 0)]
        rw [trimLoop_eq_meritTrim rest _ (by linarith)]
      · rw [if_neg hc]
        have hm : min excess (a.allocated_gen - a.min_gen) = excess :=
          min_eq_left (not_lt.mp hc)
        rw [hm, if_pos (by linarith : excess - excess ≤ 0)]
        rw [sub_self, meritTrim_nonpos rest 0 (le_refl 0)]

/-- C10 (amended): for every plant pool whose plants all have positive
`Max_Power` and every positive net demand, `_allocate_generation`
computes exactly the allocation described by the claim:
ascending-variable-cost walk giving each plant `max_power` while
remaining demand exceeds it, the crossing plant
`max(min_power, remaining)`, nothing to later plants, followed by the
reverse trim that reduces allocations — never below their own
`min_power` floor — until the overshoot is absorbed.  (Plants with
non-positive `Max_Power` are skipped outright by the code's
`continue` guard, receiving no allocation entry at all — see the
counterexample.) -/
theorem merit_order_allocator_correct (plants : List PPlant) (net_demand : ℚ)
    (hmax : ∀ p ∈ plants, 0 < p.max_power) (hd : 0 < net_demand) :
    _allocate_generation plants net_demand = merit_order_spec plants net_demand := by
  simp only [_allocate_generation, merit_order_spec, if_neg (not_le.mpr hd)]
  have hsorted_max : ∀ p ∈ sortByKey (fun p => p.variable_cost) plants,
      0 < p.max_power :=
    fun p hp => hmax p ((mem_sortByKey _ p plants).mp hp)
  rw [allocLoop_eq_meritWalk _ _ hsorted_max hd]
  by_cases hex : 0 < ((meritWalk (sortByKey (fun p => p.variable_cost) plants)
      net_demand).map (fun a => a.allocated_gen)).sum - net_demand
  · rw [if_pos hex, max_eq_left (le_of_lt hex), trimLoop_eq_meritTrim _ _ hex]
  · rw [if_neg hex, max_eq_right (not_lt.mp hex),
      meritTrim_nonpos _ 0 (le_refl 0), List.reverse_reverse]

/-- Witness for C10: two plants `(VC 1, min 2, max 5)` and
`(VC 2, min 3, max 5)` with demand 6 — the crossing plant's floor 3
overshoots by 2, absorbed from the cheaper plant. -/
theorem merit_order_allocator_correct_witness :
    (∀ p ∈ ([⟨"A", 1, 2, 5⟩, ⟨"B", 2, 3, 5⟩] : List PPlant), 0 < p.max_power) ∧
    (0 : ℚ) < 6 ∧
    _allocate_generation [⟨"A", 1, 2, 5⟩, ⟨"B", 2, 3, 5⟩] 6 =
      merit_order_spec [⟨"A", 1, 2, 5⟩, ⟨"B", 2, 3, 5⟩] 6 :=
  ⟨by decide, by decide,
    merit_order_allocator_correct [⟨"A", 1, 2, 5⟩, ⟨"B", 2, 3, 5⟩] 6
      (by decide) (by decide)⟩

/-- C10 (counterexample): on a pool containing a plant with zero
`Max_Power`, the code's skip guard (`if max_p <= 0: continue`) omits the
plant from the allocation entirely, while the claim's walk — "allocates
max_power to each plant while remaining demand exceeds that plant's
max_power" — gives it an allocation entry: the two results differ at the
concrete pool `[(VC 1, min 0, max 0), (VC 2, min 0, max 5)]` with
demand 3. -/
theorem merit_order_zero_max_counterexample :
    _allocate_generation [⟨"Z", 1, 0, 0⟩, ⟨"A", 2, 0, 5⟩] 3 =
      some [⟨"A", 3, 0, 5⟩] ∧
    merit_order_spec [⟨"Z", 1, 0, 0⟩, ⟨"A", 2, 0, 5⟩] 3 =
      some [⟨"Z", 0, 0, 0⟩, ⟨"A", 3, 0, 5⟩] ∧
    (some [⟨"A", 3, 0, 5⟩] : Option (List PlantAlloc)) ≠
      some [⟨"Z", 0, 0, 0⟩, ⟨"A", 3, 0, 5⟩] := by
  refine ⟨?_, ?_, ?_⟩
  · norm_num [_allocate_generation, sortByKey, insertByKey, allocLoop, trimLoop,
      max_def, min_def]
  · norm_num [merit_order_spec, sortByKey, insertByKey, meritWalk, meritTrim,
      max_def, min_def]
  · simp

end PC
